import Mathlib

/-!
Verification of the gomplate datasource engine (package `data`).

The definitions below are a shallow embedding of the Go sources:
  * `src/data/datasource.go` — `Source`, `Data.readSource`, `resolveURL`,
    `splitFSMuxURL`, the extension registry built in `init`;
  * `src/unnamed/part_000` (second half) — `readAWSSMP`, `readAWSSMPParam`,
    `listAWSSMPParams`, `parseDatasourceURLArgs`;
  * `src/unnamed/part_001` — `mimeAlias`, `(*Source).mimeType`, `guessMimeType`.

Go standard-library collaborators (`net/url`, `mime`, `path`, `strings`) are
external to the repository; the fragments of their behaviour that the sources
exercise are modelled here as explicit Lean functions, each with a comment
stating what is modelled.  Strings are treated as sequences of characters
(the sources only ever index and slice at ASCII separators, where Go byte
indexing and character indexing agree).
-/

namespace GomplateData

/-! ### Character and string helpers (models of `strings`/byte-level Go code) -/

/-- One character of a Go string; the sources only inspect ASCII characters. -/
abbrev Ch := Char

/-- Model of `strings.HasPrefix(s, "/")` for the single byte `/`. -/
def startsWithSlash (s : String) : Bool :=
  match s.data with
  | '/' :: _ => true
  | _ => false

/-- Model of `strings.HasPrefix(s, "//")`. -/
def startsWithTwoSlash (s : String) : Bool :=
  match s.data with
  | '/' :: '/' :: _ => true
  | _ => false

/-- Model of `strings.HasSuffix(s, "/")`. -/
def endsWithSlash (s : String) : Bool :=
  match s.data.getLast? with
  | some '/' => true
  | _ => false

/-- Model of Go string slicing `s[n:]` (character-level). -/
def dropChars (s : String) (n : Nat) : String :=
  String.mk (s.data.drop n)

/-- Model of `strings.TrimPrefix(p, "/")`: remove one leading separator. -/
def stripLeadSep (p : String) : String :=
  if startsWithSlash p then dropChars p 1 else p

/-- Model of `strings.ReplaceAll(s, " ", "+")` (single-character pattern). -/
def spacesToPlus (s : String) : String :=
  String.mk (s.data.map fun c => if c = ' ' then '+' else c)

/-- ASCII lower-casing of one character; model of `unicode.ToLower` on the
ASCII range that media-type strings use. -/
def lowerCh (c : Ch) : Ch :=
  if 'A' ≤ c ∧ c ≤ 'Z' then Char.ofNat (c.toNat + 32) else c

/-- Model of `strings.ToLower`, ASCII range. -/
def asciiLower (s : String) : String :=
  String.mk (s.data.map lowerCh)

/-- ASCII whitespace, the subset of `unicode.IsSpace` media types can carry. -/
def isSpaceCh (c : Ch) : Bool :=
  c = ' ' ∨ c = '\t' ∨ c = '\n' ∨ c = '\r'

/-- Model of `strings.TrimSpace`, ASCII range. -/
def asciiTrim (s : String) : String :=
  String.mk (((s.data.dropWhile isSpaceCh).reverse.dropWhile isSpaceCh).reverse)

/-- Split a character list at every occurrence of `c`
(model of `strings.Split` / the repeated `strings.Cut` loop). -/
def splitCh (c : Ch) : List Ch → List (List Ch)
  | [] => [[]]
  | a :: rest =>
    let r := splitCh c rest
    if a = c then [] :: r
    else
      match r with
      | h :: t => (a :: h) :: t
      | [] => [[a]]

/-- Cut a character list at the first occurrence of `c`
(model of `strings.Cut`): part before, and the part after when `c` occurs. -/
def cutCh (c : Ch) : List Ch → List Ch × Option (List Ch)
  | [] => ([], none)
  | a :: rest =>
    if a = c then ([], some rest)
    else
      let (x, y) := cutCh c rest
      (a :: x, y)

/-- ASCII control characters, which `net/url.Parse` rejects. -/
def isCtlCh (c : Ch) : Bool :=
  c.toNat < 0x20 ∨ c.toNat = 0x7f

/-- Hexadecimal digit value, used by percent-escape decoding. -/
def hexVal (c : Ch) : Option Nat :=
  if '0' ≤ c ∧ c ≤ '9' then some (c.toNat - '0'.toNat)
  else if 'a' ≤ c ∧ c ≤ 'f' then some (c.toNat - 'a'.toNat + 10)
  else if 'A' ≤ c ∧ c ≤ 'F' then some (c.toNat - 'A'.toNat + 10)
  else none

/-- Model of `net/url` query unescaping: `+` becomes space, `%XX` decodes,
an invalid escape fails (ASCII bytes only). -/
def unescapeQuery : List Ch → Option (List Ch)
  | [] => some []
  | '%' :: a :: b :: rest =>
    match hexVal a, hexVal b with
    | some x, some y => (unescapeQuery rest).map (fun r => Char.ofNat (16 * x + y) :: r)
    | _, _ => none
  | '%' :: _ => none
  | '+' :: rest => (unescapeQuery rest).map (fun r => ' ' :: r)
  | a :: rest => (unescapeQuery rest).map (fun r => a :: r)

/-- Model of `net/url` path unescaping: `%XX` decodes, `+` is literal,
an invalid escape fails (ASCII bytes only). -/
def unescapePath : List Ch → Option (List Ch)
  | [] => some []
  | '%' :: a :: b :: rest =>
    match hexVal a, hexVal b with
    | some x, some y => (unescapePath rest).map (fun r => Char.ofNat (16 * x + y) :: r)
    | _, _ => none
  | '%' :: _ => none
  | a :: rest => (unescapePath rest).map (fun r => a :: r)

/-! ### URL values and query parameters (model of `net/url.URL` / `url.Values`)

A query is kept as the ordered list of decoded key/value pairs that
`url.Values` would be built from; `queryGet` is `Values.Get` (first value,
empty string when absent), `valuesAll` is the full value list of one key. -/

/-- Model of `net/url.URL` restricted to the fields the sources read:
`Scheme`, `Opaque`, `Host` (the authority; the `User` field is never set by
the sources and is omitted), `Path`, and the parsed query.  `ForceQuery` and
fragments are never produced by the sources and are omitted. -/
structure URL where
  scheme : String := ""
  opq : String := ""
  host : String := ""
  path : String := ""
  query : List (String × String) := []
deriving DecidableEq

/-- Model of `url.Values.Get k`: first value of the key, `""` if absent. -/
def queryGet (q : List (String × String)) (k : String) : String :=
  match q.find? (fun p => p.1 == k) with
  | some p => p.2
  | none => ""

/-- All values carried by key `k`, in order (the `[]string` of `url.Values`). -/
def valuesAll (q : List (String × String)) (k : String) : List String :=
  (q.filter (fun p => p.1 == k)).map (fun p => p.2)

/-- Whether the key is present (`len(values[k]) > 0` on a `url.Values`). -/
def memKeys (q : List (String × String)) (k : String) : Bool :=
  q.any (fun p => p.1 == k)

/-- Key list with later duplicates removed, keeping first occurrences; used to
model iteration over the keys of a Go map built from an ordered pair list. -/
def dedupFirst : List String → List String
  | [] => []
  | k :: rest => k :: (dedupFirst rest).filter (fun a => a ≠ k)

/-- Model of parsing a raw query string (`url.Values` construction as done by
`ParseQuery` in current Go): split on `&`, skip empty segments and segments
containing `;`, cut each segment at the first `=`, unescape key and value,
silently skipping pairs whose unescaping fails. -/
def parseQueryChars (qs : List Ch) : List (String × String) :=
  (splitCh '&' qs).filterMap fun seg =>
    if seg = [] then none
    else if seg.contains ';' then none
    else
      let kv := cutCh '=' seg
      let k := kv.1
      let v := match kv.2 with | none => [] | some v => v
      match unescapeQuery k, unescapeQuery v with
      | some k, some v => some (String.mk k, String.mk v)
      | _, _ => none

/-- Model of `net/url.Parse` for the relative-reference strings the sources
feed it (argument strings, normalized or not; never scheme- or
authority-carrying forms): the path is everything before the first `?`
(percent-decoded), the query is parsed from the remainder.  Parsing fails when
the string contains an ASCII control character or an invalid percent escape in
the path, which is how `net/url.Parse` rejects the malformed arguments the
tests exercise. -/
def parseURLModel (s : String) : Except String URL :=
  if s.data.any isCtlCh then .error s
  else
    let cut := cutCh '?' s.data
    match unescapePath cut.1 with
    | none => .error s
    | some pchars =>
      let q := match cut.2 with | none => [] | some qs => parseQueryChars qs
      .ok { path := String.mk pchars, query := q }

/-! ### Media types (`src/unnamed/part_001` and the `mime` collaborators) -/

def textMimetype : String := "text/plain"
def csvMimetype : String := "text/csv"
def jsonMimetype : String := "application/json"
def jsonArrayMimetype : String := "application/array+json"
def tomlMimetype : String := "application/toml"
def yamlMimetype : String := "application/yaml"
def envMimetype : String := "application/x-env"

/-- `mimeAlias` (part_001 lines 30–35): canonicalize the two legacy spellings
recorded in `mimeTypeAliases`, return anything else unchanged. -/
def mimeAlias (m : String) : String :=
  if m = "application/x-yaml" then yamlMimetype
  else if m = "application/text" then textMimetype
  else m

/-- Model of `path/filepath.Ext`: the suffix starting at the final dot in the
final slash-separated element, empty if there is no dot.  Scans the reversed
character list, accumulating the suffix. -/
def extFromRev (acc : List Ch) : List Ch → String
  | [] => ""
  | c :: rest =>
    if c = '/' then ""
    else if c = '.' then String.mk ('.' :: acc)
    else extFromRev (c :: acc) rest

/-- `filepath.Ext p`. -/
def filepathExt (p : String) : String :=
  extFromRev [] p.data.reverse

/-- Model of `mime.TypeByExtension` restricted to the extension table that
`datasource.go`'s `init` registers (`regExtension` calls); these entries
shadow any identical built-in entries of the Go `mime` package.  Extensions
not in the table map to the empty string.  `TypeByExtension` also tries the
lower-cased extension, which is the identity on these keys. -/
def typeByExtension (ext : String) : String :=
  let e := asciiLower ext
  if e = ".json" then jsonMimetype
  else if e = ".yml" then yamlMimetype
  else if e = ".yaml" then yamlMimetype
  else if e = ".csv" then csvMimetype
  else if e = ".toml" then tomlMimetype
  else if e = ".env" then envMimetype
  else ""

/-- RFC 1521 `tspecials`, as checked by Go `mime.isTokenChar`. -/
def isTSpecial (c : Ch) : Bool :=
  c ∈ ['(', ')', '<', '>', '@', ',', ';', ':', '\\', '"', '/', '[', ']', '?', '=']

/-- Go `mime.isTokenChar`: printable ASCII that is not a tspecial. -/
def isTokenCh (c : Ch) : Bool :=
  decide (0x20 < c.toNat) && decide (c.toNat < 0x7f) && !(isTSpecial c)

/-- Go `mime.checkMediaTypeDisposition` on the lower-cased base part:
a nonempty token, optionally followed by `/` and a second nonempty token,
with nothing after. -/
def checkMediaTypeTokens (s : List Ch) : Bool :=
  let sp := s.span isTokenCh
  if sp.1.isEmpty then false
  else
    match sp.2 with
    | [] => true
    | '/' :: r2 =>
      let sp2 := r2.span isTokenCh
      !sp2.1.isEmpty && sp2.2.isEmpty
    | _ => false

/-- The base `type/subtype` part that `mime.ParseMediaType` extracts: the part
before the first `;`, lower-cased and space-trimmed. -/
def mediaTypeBase (v : String) : String :=
  asciiTrim (asciiLower (String.mk (cutCh ';' v.data).1))

/-- Model of `mime.ParseMediaType` as used at part_001 lines 82/138: returns
the validated base `type/subtype` together with the raw parameter remainder
(which the callers discard), or an error for a malformed base.  The stdlib
parameter-section validation is not modelled; none of the repository tests
reach it with parameters. -/
def parseMediaType (v : String) : Except String (String × String) :=
  let base := mediaTypeBase v
  let rest := match (cutCh ';' v.data).2 with | none => "" | some r => String.mk r
  if checkMediaTypeTokens base.data then .ok (base, rest) else .error base

/-- Errors produced by media-type resolution.  `parseError` carries the
argument string `net/url.Parse` rejected; `invalidMediaType` carries the
candidate string `mime.ParseMediaType` rejected. -/
inductive MimeErr where
  | parseError (arg : String)
  | invalidMediaType (candidate : String)
deriving DecidableEq

/-! ### Sources and media-type resolution -/

/-- `Source` (datasource.go lines 141–148), restricted to the fields the
modelled code reads or writes: `Alias`, `URL`, `mediaType`.  `Header` is
carried opaquely by HTTP readers only and `kv`/`asmpg` are backend handles;
`asmpg` is modelled as the Boolean "handle initialized" flag. -/
structure Source where
  Alias : String := ""
  URL : URL := {}
  mediaType : String := ""
  asmpg : Bool := false
deriving DecidableEq

/-- The argument normalization shared by `mimeType` and `guessMimeType`
(part_001 lines 47–54 / 103–110): a nonempty argument starting with `//`
loses one separator; a nonempty argument without a leading separator gains
one. -/
def normalizeArg (name : String) : String :=
  if name.length > 0 then
    let n1 := if startsWithTwoSlash name then dropChars name 1 else name
    if !startsWithSlash n1 then "/" ++ n1 else n1
  else name

/-- The candidate-selection chain of `guessMimeType` (part_001 lines 115–135)
after the argument has been parsed: the `type` query parameter of the
argument, else of the base, else the supplied guess — the winner of those
three passing through the space-to-plus transform — else the registered type
of the argument path extension, else of the base path extension. -/
def guessMimeTypeParsed (base : URL) (nameURL : URL) (mimeGuess : String) :
    Except MimeErr String :=
  let mediatype := queryGet nameURL.query "type"
  let mediatype := if mediatype = "" then queryGet base.query "type" else mediatype
  let mediatype := if mediatype = "" then mimeGuess else mediatype
  let mediatype := spacesToPlus mediatype
  let mediatype := if mediatype = "" then typeByExtension (filepathExt nameURL.path) else mediatype
  let mediatype := if mediatype = "" then typeByExtension (filepathExt base.path) else mediatype
  if mediatype ≠ "" then
    match parseMediaType mediatype with
    | .error _ => .error (.invalidMediaType mediatype)
    | .ok tp => .ok tp.1
  else .ok textMimetype

/-- `guessMimeType` (part_001 lines 102–147). -/
def guessMimeType (base : URL) (name : String) (mimeGuess : String) :
    Except MimeErr String :=
  match parseURLModel (normalizeArg name) with
  | .error s => .error (.parseError s)
  | .ok nameURL => guessMimeTypeParsed base nameURL mimeGuess

/-- `(*Source).mimeType` (part_001 lines 46–91), translated independently of
`guessMimeType` since the Go bodies are two separate functions. -/
def Source.mimeType (s : Source) (arg : String) : Except MimeErr String :=
  match parseURLModel (normalizeArg arg) with
  | .error a => .error (.parseError a)
  | .ok argURL =>
    let mediatype := queryGet argURL.query "type"
    let mediatype := if mediatype = "" then queryGet s.URL.query "type" else mediatype
    let mediatype := if mediatype = "" then s.mediaType else mediatype
    let mediatype := spacesToPlus mediatype
    let mediatype := if mediatype = "" then typeByExtension (filepathExt argURL.path) else mediatype
    let mediatype := if mediatype = "" then typeByExtension (filepathExt s.URL.path) else mediatype
    if mediatype ≠ "" then
      match parseMediaType mediatype with
      | .error _ => .error (.invalidMediaType mediatype)
      | .ok tp => .ok tp.1
    else .ok textMimetype

/-- The first non-empty media-type signal in the priority order of part_001
lines 115–135, with the space-to-plus transform applied to winners coming
from the first three (query/declared) sources, as the code does. -/
def mtCandidate (base nameURL : URL) (mimeGuess : String) : String :=
  let aT := queryGet nameURL.query "type"
  let bT := queryGet base.query "type"
  let eA := typeByExtension (filepathExt nameURL.path)
  let eB := typeByExtension (filepathExt base.path)
  if aT ≠ "" then spacesToPlus aT
  else if bT ≠ "" then spacesToPlus bT
  else if mimeGuess ≠ "" then spacesToPlus mimeGuess
  else if eA ≠ "" then eA
  else if eB ≠ "" then eB
  else ""

/-! ### Reference resolution (`resolveURL`, datasource.go lines 417–434)

`resolvePath` and `resolveReference` model `net/url.resolvePath` and
`(*URL).ResolveReference`; the query merge is the code written in
`resolveURL` itself. -/

/-- The prefix of `base` up to and including its last `/`
(`base[:strings.LastIndex(base, "/")+1]`). -/
def upToLastSlash (base : String) : String :=
  String.mk ((base.data.reverse.dropWhile (fun c => c ≠ '/')).reverse)

/-- One step of the segment loop in `net/url.resolvePath`.  The state is the
output buffer without its initial `/`, and the `first` flag. -/
def rpStep (st : String × Bool) (elem : String) : String × Bool :=
  if elem = "." then (st.1, false)
  else if elem = ".." then
    if st.1.data.contains '/' then
      (String.mk (((st.1.data.reverse.dropWhile (fun c => c ≠ '/')).drop 1).reverse), st.2)
    else ("", true)
  else ((if st.2 then st.1 else st.1 ++ "/") ++ elem, false)

/-- Model of `net/url.resolvePath`: merge `ref` into the directory of `base`,
then remove dot segments. -/
def resolvePath (base ref : String) : String :=
  let full :=
    if ref = "" then base
    else if !startsWithSlash ref then upToLastSlash base ++ ref
    else ref
  if full = "" then ""
  else
    let segs := (splitCh '/' full.data).map String.mk
    let dst := (segs.foldl rpStep ("", true)).1
    let dst :=
      if segs.getLast? = some "." ∨ segs.getLast? = some ".." then dst ++ "/" else dst
    if startsWithSlash dst then dst else "/" ++ dst

/-- Model of `(*net/url.URL).ResolveReference` on the URL fields the sources
use (no user info, fragments or force-query). -/
def resolveReference (base ref : URL) : URL :=
  let u := ref
  let u := if ref.scheme = "" then { u with scheme := base.scheme } else u
  if ref.scheme ≠ "" ∨ ref.host ≠ "" then
    { u with path := resolvePath u.path "" }
  else if ref.opq ≠ "" then
    { u with host := "", path := "" }
  else
    let u := if ref.path = "" ∧ ref.query = [] then { u with query := base.query } else u
    { u with host := base.host, path := resolvePath base.path ref.path }

/-- The per-key result of the query merge in `resolveURL`: a key present in
the relative query is `Set` to the relative's first value; a key only in the
base keeps all its base values. -/
def overrideVals (bq rq : List (String × String)) (k : String) : List (String × String) :=
  if memKeys rq k then [(k, queryGet rq k)]
  else (valuesAll bq k).map (fun v => (k, v))

/-- The merged query written by `resolveURL` when the base has a query:
start from the base values, `Set` every relative key to its first value, and
append the relative-only keys.  `url.Values.Encode` emits keys sorted; since
no consumer depends on parameter order, the model keeps first-occurrence
order instead. -/
def mergeQueries (bq rq : List (String × String)) : List (String × String) :=
  (dedupFirst (bq.map Prod.fst)).flatMap (overrideVals bq rq)
    ++ ((dedupFirst (rq.map Prod.fst)).filter (fun k => !memKeys bq k)).map
        (fun k => (k, queryGet rq k))

/-- The successful branch of `resolveURL`: standard reference resolution,
then the query-merge override when the base carries a query. -/
def resolveMerged (base relURL : URL) : URL :=
  let out := resolveReference base relURL
  if base.query ≠ [] then { out with query := mergeQueries base.query relURL.query }
  else out

/-- `resolveURL` (datasource.go lines 417–434).  The `url.Parse` of the
relative string happens in the Go function; since the claims quantify over
its outcome, the parse result is the input here (`parseURLModel` produces it
for concrete strings). -/
def resolveURL (base : URL) (rel : Except String URL) : Except String URL :=
  match rel with
  | .error e => .error e
  | .ok relURL => .ok (resolveMerged base relURL)

/-! ### Root/path splitting (`splitFSMuxURL`, datasource.go lines 437–474) -/

/-- `splitFSMuxURL`: strip one leading separator from the path; fall back to
the opaque component (clearing it on the root); default to `"."`; reset the
root path to `"/"`. -/
def splitFSMuxURL (u0 : URL) : URL × String :=
  let base := stripLeadSep u0.path
  let st :=
    if base = "" ∧ u0.opq ≠ "" then (u0.opq, { u0 with opq := "" }) else (base, u0)
  let base := if st.1 = "" then "." else st.1
  ({ st.2 with path := "/" }, base)

/-! ### The source cache (`readSource`, datasource.go lines 289–402) -/

/-- `fileContent` (datasource.go lines 86–89); the byte slice is modelled as a
string. -/
structure fileContent where
  b : String
  contentType : String
deriving DecidableEq

/-- The cache key loop of `readSource` (lines 293–296): the alias with every
argument appended in call order. -/
def cacheKey (source : Source) (args : List String) : String :=
  args.foldl (fun k v => k ++ v) source.Alias

/-- Concatenation of the argument strings in call order. -/
def concatArgs (args : List String) : String :=
  args.foldr (fun a r => a ++ r) ""

/-- Cache lookup (`d.cache[cacheKey]`); the map is modelled as an association
list with the newest entry first. -/
def lookupCache (cache : List (String × fileContent)) (k : String) : Option fileContent :=
  (cache.find? (fun p => p.1 == k)).map (fun p => p.2)

/-- Cache store (`d.cache[cacheKey] = fc`). -/
def cacheInsert (cache : List (String × fileContent)) (k : String) (fc : fileContent) :
    List (String × fileContent) :=
  (k, fc) :: cache

/-- `readSource` (datasource.go lines 289–402).  The fetch pipeline between
the cache check and the store — resolve, split, FSMux provider fetch or
Reader dispatch, and type resolution (lines 302–397) — performs backend I/O
and is abstracted as the `pipeline` argument; both Go success paths store the
entry and every error path returns without storing, which is exactly the
branch structure kept here.  The final component counts pipeline
invocations. -/
def readSource {ε : Type} (pipeline : Source → List String → Except ε fileContent)
    (cache : List (String × fileContent)) (source : Source) (args : List String) :
    Except ε fileContent × List (String × fileContent) × Nat :=
  let key := cacheKey source args
  match lookupCache cache key with
  | some fc => (.ok fc, cache, 0)
  | none =>
    match pipeline source args with
    | .ok fc => (.ok fc, cacheInsert cache key fc, 1)
    | .error e => (.error e, cache, 1)

/-! ### Logical paths (`path.Clean` / `path.Join`, used by
`parseDatasourceURLArgs`) -/

/-- One step of the `path.Clean` stack: skip empty and `.` segments, let `..`
pop a non-`..` segment (kept literally when the stack is empty and the path
is not rooted, dropped when rooted), push anything else.  The stack is kept
reversed (top first). -/
def cleanStep (rooted : Bool) (stack : List String) (seg : String) : List String :=
  if seg = "" ∨ seg = "." then stack
  else if seg = ".." then
    match stack with
    | [] => if rooted then [] else [".."]
    | t :: rest => if t = ".." then ".." :: t :: rest else rest
  else seg :: stack

/-- Model of `path.Clean`. -/
def pathClean (p : String) : String :=
  if p = "" then "."
  else
    let rooted := startsWithSlash p
    let segs := (splitCh '/' p.data).map String.mk
    let stack := segs.foldl (cleanStep rooted) []
    let body := String.intercalate "/" stack.reverse
    if rooted then "/" ++ body
    else if body = "" then "." else body

/-- Model of `path.Join`: drop empty elements, join with `/`, clean. -/
def pathJoin (elems : List String) : String :=
  let ne := elems.filter (fun e => e ≠ "")
  if ne = [] then "" else pathClean (String.intercalate "/" ne)

/-! ### The aws+smp Reader (part_000 lines 152–246) -/

/-- Errors surfaced by the modelled readers.  `tooManyArgs` carries the
scheme named in the message, the limit the message states ("maximum two
arguments") and the count found; `parseError` carries the argument string
`url.Parse` rejected; `backend` wraps a backend fetch failure. -/
inductive DSErr where
  | tooManyArgs (scheme : String) (limit found : Nat)
  | parseError (arg : String)
  | backend (msg : String)
deriving DecidableEq

/-- The space-joined parameter map built from a query
(`params[key] = strings.Join(val, " ")` over every key of the map). -/
def spaceJoinedParams (q : List (String × String)) : List (String × String) :=
  (dedupFirst (q.map Prod.fst)).map
    (fun k => (k, String.intercalate " " (valuesAll q k)))

/-- Map assignment `params[k] = v` on the association-list model. -/
def setParam (ps : List (String × String)) (k v : String) : List (String × String) :=
  if memKeys ps k then ps.map (fun p => if p.1 == k then (k, v) else p)
  else ps ++ [(k, v)]

/-- `parseDatasourceURLArgs` (part_000 lines 211–246): at most one extra
argument (two or more is the "maximum two arguments" error); the logical path
starts from the source URL path (or opaque component when the path is empty)
and the single optional argument is joined onto it with `path.Join`,
preserving a trailing separator; query parameters of the argument overwrite
those of the source URL, each map value being the space-join of the key's
values. -/
def parseDatasourceURLArgs (sourceURL : URL) (args : List String) :
    Except DSErr (List (String × String) × String) :=
  if 2 ≤ args.length then
    .error (.tooManyArgs sourceURL.scheme 2 args.length)
  else
    let p := sourceURL.path
    let params := spaceJoinedParams sourceURL.query
    let p := if p = "" ∧ sourceURL.opq ≠ "" then sourceURL.opq else p
    match args with
    | [] => .ok (params, p)
    | a :: _ =>
      match parseURLModel a with
      | .error e => .error (.parseError e)
      | .ok parsed =>
        let p :=
          if parsed.path ≠ "" then
            let j := pathJoin [p, parsed.path]
            if endsWithSlash parsed.path then j ++ "/" else j
          else p
        let params :=
          (dedupFirst (parsed.query.map Prod.fst)).foldl
            (fun ps k => setParam ps k (String.intercalate " " (valuesAll parsed.query k)))
            params
        .ok (params, p)

/-- One AWS SSM parameter, restricted to the fields the Reader touches. -/
structure SSMParam where
  Name : String
  Value : String
deriving DecidableEq

/-- Modelled from the spec: "Encoding of structured values to bytes (for the
merge Reader and directory-listing results) always uses the JSON form" — the
repository's `ToJSON` helper (its `json.go`) is not under `src/`.  JSON
string encoding, without escape handling (no claim depends on escapes). -/
def jsonString (s : String) : String := "\"" ++ s ++ "\""

/-- Modelled from the spec: JSON array form of a string list, as `ToJSON`
produces for the directory listing. -/
def jsonStringArray (xs : List String) : String :=
  "[" ++ String.intercalate "," (xs.map jsonString) ++ "]"

/-- Modelled from the spec: JSON object form of one SSM parameter, as
`ToJSON(result)` produces for a leaf read. -/
def jsonParamObject (p : SSMParam) : String :=
  "\x7b\"Name\":" ++ jsonString p.Name ++ ",\"Value\":" ++ jsonString p.Value ++ "\x7d"

/-- `readAWSSMPParam` (part_000 lines 173–189): one `GetParameter` call,
result encoded as a JSON object.  The SSM client is external and passed as
`getParam`; the Go error wrapping is modelled as propagation. -/
def readAWSSMPParam (getParam : String → Except String SSMParam) (paramPath : String) :
    Except String String :=
  match getParam paramPath with
  | .error e => .error e
  | .ok p => .ok (jsonParamObject p)

/-- `listAWSSMPParams` (part_000 lines 191–209): one `GetParametersByPath`
call; each returned name loses its first `len(paramPath)` characters and the
suffixes are encoded as a JSON array. -/
def listAWSSMPParams (getByPath : String → Except String (List SSMParam))
    (paramPath : String) : Except String String :=
  match getByPath paramPath with
  | .error e => .error e
  | .ok ps => .ok (jsonStringArray (ps.map (fun p => dropChars p.Name paramPath.length)))

/-- `readAWSSMP` (part_000 lines 152–171): lazily mark the SSM handle
initialized, parse the arguments, unconditionally set the declared media type
to JSON — overridden to array-of-JSON for a directory path — and dispatch to
the list or leaf fetch.  Returns the data outcome together with the updated
`Source` (Go mutates it through the pointer). -/
def readAWSSMP (getParam : String → Except String SSMParam)
    (getByPath : String → Except String (List SSMParam))
    (source : Source) (args : List String) : Except DSErr String × Source :=
  let source := { source with asmpg := true }
  match parseDatasourceURLArgs source.URL args with
  | .error e => (.error e, source)
  | .ok pr =>
    let paramPath := pr.2
    let source := { source with mediaType := jsonMimetype }
    if endsWithSlash paramPath then
      let source := { source with mediaType := jsonArrayMimetype }
      match listAWSSMPParams getByPath paramPath with
      | .error e => (.error (.backend e), source)
      | .ok d => (.ok d, source)
    else
      match readAWSSMPParam getParam paramPath with
      | .error e => (.error (.backend e), source)
      | .ok d => (.ok d, source)

/-! ### Helper lemmas -/

theorem str_eq_empty_iff (s : String) : s = "" ↔ s.data = [] := by
  cases s with
  | mk d =>
    constructor
    · intro h; have h2 := congrArg String.data h; simpa using h2
    · intro h; subst h; rfl

theorem spacesToPlus_eq_empty (s : String) : (spacesToPlus s = "") ↔ (s = "") := by
  rw [str_eq_empty_iff, str_eq_empty_iff]
  simp [spacesToPlus]

/-- The candidate chain of `guessMimeTypeParsed` selects exactly the first
non-empty signal (`mtCandidate`) and feeds it to the media-type parse. -/
theorem guessMimeTypeParsed_eq (base nameURL : URL) (g : String) :
    guessMimeTypeParsed base nameURL g =
      (if mtCandidate base nameURL g = "" then .ok textMimetype
       else
         match parseMediaType (mtCandidate base nameURL g) with
         | .error _ => .error (.invalidMediaType (mtCandidate base nameURL g))
         | .ok tp => .ok tp.1) := by
  simp only [guessMimeTypeParsed, mtCandidate]
  by_cases h1 : queryGet nameURL.query "type" = "" <;>
    by_cases h2 : queryGet base.query "type" = "" <;>
    by_cases h3 : g = "" <;>
    by_cases h4 : typeByExtension (filepathExt nameURL.path) = "" <;>
    by_cases h5 : typeByExtension (filepathExt base.path) = "" <;>
    simp [h1, h2, h3, h4, h5, spacesToPlus_eq_empty]

theorem valuesAll_cons (p : String × String) (q : List (String × String)) (k : String) :
    valuesAll (p :: q) k = if p.1 = k then p.2 :: valuesAll q k else valuesAll q k := by
  by_cases h : p.1 = k
  · rw [valuesAll, List.filter_cons, if_pos (by simpa using h), List.map_cons, if_pos h]; rfl
  · rw [valuesAll, List.filter_cons, if_neg (by simpa using h), if_neg h]; rfl

theorem valuesAll_append (q r : List (String × String)) (k : String) :
    valuesAll (q ++ r) k = valuesAll q k ++ valuesAll r k := by
  simp [valuesAll]

theorem mem_dedupFirst (l : List String) (a : String) : a ∈ dedupFirst l ↔ a ∈ l := by
  induction l with
  | nil => simp [dedupFirst]
  | cons k rest ih =>
    simp only [dedupFirst, List.mem_cons, List.mem_filter]
    constructor
    · rintro (rfl | ⟨h, -⟩)
      · exact .inl rfl
      · exact .inr (ih.mp h)
    · rintro (rfl | h)
      · exact .inl rfl
      · by_cases hk : a = k
        · exact .inl hk
        · exact .inr ⟨ih.mpr h, by simpa using hk⟩

theorem nodup_dedupFirst (l : List String) : (dedupFirst l).Nodup := by
  induction l with
  | nil => simp [dedupFirst]
  | cons k rest ih =>
    refine List.Nodup.cons ?_ (ih.filter _)
    intro hmem
    have := List.mem_filter.mp hmem
    simpa using this.2

theorem memKeys_iff (q : List (String × String)) (k : String) :
    memKeys q k = true ↔ k ∈ q.map Prod.fst := by
  simp only [memKeys, List.any_eq_true, List.mem_map]
  constructor
  · rintro ⟨p, hp, he⟩; exact ⟨p, hp, by simpa using he⟩
  · rintro ⟨p, hp, he⟩; exact ⟨p, hp, by simpa using he⟩

theorem valuesAll_eq_nil_of_not_mem (q : List (String × String)) (k : String)
    (h : memKeys q k = false) : valuesAll q k = [] := by
  induction q with
  | nil => rfl
  | cons p rest ih =>
    simp only [memKeys, List.any_cons, Bool.or_eq_false_iff] at h
    rw [valuesAll_cons, if_neg (by simpa using h.1)]
    exact ih (by simpa [memKeys] using h.2)

theorem valuesAll_map_const_key (k0 k : String) (vs : List String) :
    valuesAll (vs.map (fun v => (k0, v))) k = if k0 = k then vs else [] := by
  induction vs with
  | nil => simp [valuesAll]
  | cons v rest ih =>
    rw [List.map_cons, valuesAll_cons]
    by_cases h : k0 = k <;> simp only [h, if_true, if_false] at ih ⊢ <;> simp [ih]

theorem valuesAll_map_key_fn (g : String → String) (k : String) (ks : List String)
    (h : ks.Nodup) :
    valuesAll (ks.map (fun k1 => (k1, g k1))) k = if k ∈ ks then [g k] else [] := by
  induction ks with
  | nil => simp [valuesAll]
  | cons k1 rest ih =>
    have hn := List.nodup_cons.mp h
    rw [List.map_cons, valuesAll_cons]
    by_cases he : k1 = k
    · subst he
      rw [if_pos rfl, ih hn.2, if_neg hn.1, if_pos (List.mem_cons_self _ _)]
    · have hke : ¬k = k1 := fun h2 => he h2.symm
      rw [if_neg he, ih hn.2]
      simp [List.mem_cons, hke]

theorem valuesAll_overrideVals_ne (bq rq : List (String × String)) (k0 k : String)
    (h : k0 ≠ k) : valuesAll (overrideVals bq rq k0) k = [] := by
  unfold overrideVals
  by_cases hm : memKeys rq k0
  · rw [if_pos hm, valuesAll_cons, if_neg h]; rfl
  · rw [if_neg hm, valuesAll_map_const_key, if_neg h]

theorem valuesAll_overrideVals_self (bq rq : List (String × String)) (k : String) :
    valuesAll (overrideVals bq rq k) k =
      if memKeys rq k then [queryGet rq k] else valuesAll bq k := by
  unfold overrideVals
  by_cases hm : memKeys rq k
  · rw [if_pos hm, if_pos hm, valuesAll_cons, if_pos rfl]; rfl
  · rw [if_neg hm, if_neg hm, valuesAll_map_const_key, if_pos rfl]

theorem valuesAll_flatMap_override (bq rq : List (String × String)) (k : String)
    (ks : List String) (h : ks.Nodup) :
    valuesAll (ks.flatMap (overrideVals bq rq)) k =
      if k ∈ ks then valuesAll (overrideVals bq rq k) k else [] := by
  induction ks with
  | nil => simp [valuesAll]
  | cons k1 rest ih =>
    have hn := List.nodup_cons.mp h
    rw [List.flatMap_cons, valuesAll_append, ih hn.2]
    by_cases he : k1 = k
    · subst he
      simp [hn.1]
    · have hke : ¬k = k1 := fun h2 => he h2.symm
      rw [valuesAll_overrideVals_ne bq rq k1 k he]
      simp [List.mem_cons, hke]

theorem mem_dedupKeys_iff (q : List (String × String)) (k : String) :
    k ∈ dedupFirst (q.map Prod.fst) ↔ memKeys q k = true :=
  (mem_dedupFirst _ _).trans (memKeys_iff _ _).symm

theorem mem_relOnlyKeys_iff (bq rq : List (String × String)) (k : String) :
    k ∈ (dedupFirst (rq.map Prod.fst)).filter (fun a => !memKeys bq a) ↔
      (memKeys rq k = true ∧ memKeys bq k = false) := by
  rw [List.mem_filter, mem_dedupKeys_iff]
  simp

/-- Per-key behaviour of the `resolveURL` query merge: a key present in the
relative query is overridden to its first relative value; any other key keeps
exactly its base values. -/
theorem mergeQueries_valuesAll (bq rq : List (String × String)) (k : String) :
    valuesAll (mergeQueries bq rq) k =
      if memKeys rq k then [queryGet rq k] else valuesAll bq k := by
  unfold mergeQueries
  rw [valuesAll_append,
    valuesAll_flatMap_override bq rq k _ (nodup_dedupFirst _),
    valuesAll_map_key_fn _ _ _ ((nodup_dedupFirst _).filter _)]
  by_cases hb : memKeys bq k <;> by_cases hr : memKeys rq k <;>
    simp [mem_dedupKeys_iff, mem_relOnlyKeys_iff, hb, hr, valuesAll_overrideVals_self,
      valuesAll_eq_nil_of_not_mem, Bool.not_eq_true]

theorem strAppend_data (a b : String) : (a ++ b).data = a.data ++ b.data :=
  String.data_append a b

theorem strAppend_assoc (a b c : String) : (a ++ b) ++ c = a ++ (b ++ c) := by
  apply String.ext
  simp [strAppend_data]

theorem strAppend_empty (a : String) : a ++ "" = a := by
  apply String.ext
  simp [strAppend_data]

/-- The cache-key loop accumulates the alias followed by the arguments
concatenated in call order. -/
theorem cacheKey_eq (source : Source) (args : List String) :
    cacheKey source args = source.Alias ++ concatArgs args := by
  suffices h : ∀ (init : String), args.foldl (fun k v => k ++ v) init = init ++ concatArgs args by
    exact h source.Alias
  induction args with
  | nil => intro init; exact (strAppend_empty init).symm
  | cons a rest ih =>
    intro init
    show rest.foldl _ (init ++ a) = _
    rw [ih (init ++ a)]
    show init ++ a ++ concatArgs rest = init ++ (a ++ concatArgs rest)
    exact strAppend_assoc init a (concatArgs rest)

/-- `ResolveReference` leaves the relative query in place whenever the base
has no query (the only branch that copies the base query requires the
relative query to be empty as well). -/
theorem resolveReference_query_of_base_empty (base ref : URL) (h : base.query = []) :
    (resolveReference base ref).query = ref.query := by
  unfold resolveReference
  split_ifs <;> simp_all

/-! ### Claim theorems -/

/-- Outcome of handing a non-empty candidate to the media-type parse, as the
final block of `mimeType`/`guessMimeType` does: a malformed candidate is the
`InvalidMediaType` hard error, a well-formed one resolves to its base
`type/subtype`. -/
def mtParse (w : String) : Except MimeErr String :=
  match parseMediaType w with
  | .error _ => .error (.invalidMediaType w)
  | .ok tp => .ok tp.1

/-- C1: media-type resolution returns the first non-empty signal in strict
priority order — `type` query parameter of the caller-supplied argument, then
of the base reference, then the declared media type, then the registered
extension type of the argument path, then of the base path, then the default
`text/plain`; a higher-priority non-empty signal wins over all lower ones for
every combination of present and absent signals.  Winners from the first
three (string) sources pass through the space-to-plus transform, and every
winner is parsed to its base `type/subtype` (`mtParse`), per §4.3 steps 4
and the parse rule. -/
theorem guessMimeType_priority (base nameURL : URL) (name g : String)
    (h : parseURLModel (normalizeArg name) = .ok nameURL) :
    guessMimeType base name g =
      (if queryGet nameURL.query "type" ≠ "" then
        mtParse (spacesToPlus (queryGet nameURL.query "type"))
      else if queryGet base.query "type" ≠ "" then
        mtParse (spacesToPlus (queryGet base.query "type"))
      else if g ≠ "" then mtParse (spacesToPlus g)
      else if typeByExtension (filepathExt nameURL.path) ≠ "" then
        mtParse (typeByExtension (filepathExt nameURL.path))
      else if typeByExtension (filepathExt base.path) ≠ "" then
        mtParse (typeByExtension (filepathExt base.path))
      else .ok textMimetype) := by
  unfold guessMimeType
  rw [h]
  show guessMimeTypeParsed base nameURL g = _
  rw [guessMimeTypeParsed_eq]
  unfold mtCandidate mtParse
  by_cases h1 : queryGet nameURL.query "type" = "" <;>
    by_cases h2 : queryGet base.query "type" = "" <;>
    by_cases h3 : g = "" <;>
    by_cases h4 : typeByExtension (filepathExt nameURL.path) = "" <;>
    by_cases h5 : typeByExtension (filepathExt base.path) = "" <;>
    simp [h1, h2, h3, h4, h5, spacesToPlus_eq_empty]

/-- Witness for C1 at concrete inputs: the argument `type` parameter wins
over a base `type` parameter, a declared type and both extensions; a second
instance shows the extension signal winning when the higher signals are
absent. -/
theorem guessMimeType_priority_witness :
    guessMimeType ⟨"http", "", "example.com", "/foo.json", [("type", "application/array+yaml")]⟩
        "/foo.yaml?type=application/yaml" "text/plain" =
      mtParse (spacesToPlus "application/yaml") ∧
    guessMimeType ⟨"http", "", "example.com", "/unknown", []⟩ "/foo.json" "" =
      mtParse "application/json" := by
  constructor
  · rw [guessMimeType_priority ⟨"http", "", "example.com", "/foo.json",
      [("type", "application/array+yaml")]⟩ ⟨"", "", "", "/foo.yaml",
      [("type", "application/yaml")]⟩ "/foo.yaml?type=application/yaml" "text/plain" rfl]
    rfl
  · rw [guessMimeType_priority ⟨"http", "", "example.com", "/unknown", []⟩
      ⟨"", "", "", "/foo.json", []⟩ "/foo.json" "" rfl]
    rfl

/-- C6: once a non-empty candidate exists, a malformed candidate is a hard
`InvalidMediaType` error and resolution never falls back to the default; the
default is reached exactly when every candidate source is empty; a
well-formed candidate has its parameters (after `;`) discarded, resolving to
the lower-cased trimmed base `type/subtype`. -/
theorem mimeType_candidate_hard_error (base nameURL : URL) (g : String) :
    (mtCandidate base nameURL g = "" ↔
      (queryGet nameURL.query "type" = "" ∧ queryGet base.query "type" = "" ∧ g = "" ∧
       typeByExtension (filepathExt nameURL.path) = "" ∧
       typeByExtension (filepathExt base.path) = "")) ∧
    (mtCandidate base nameURL g = "" →
      guessMimeTypeParsed base nameURL g = .ok textMimetype) ∧
    (mtCandidate base nameURL g ≠ "" → ∀ e,
      parseMediaType (mtCandidate base nameURL g) = .error e →
      guessMimeTypeParsed base nameURL g =
        .error (.invalidMediaType (mtCandidate base nameURL g))) ∧
    (mtCandidate base nameURL g ≠ "" → ∀ tp,
      parseMediaType (mtCandidate base nameURL g) = .ok tp →
      guessMimeTypeParsed base nameURL g = .ok tp.1 ∧
      tp.1 = mediaTypeBase (mtCandidate base nameURL g)) := by
  refine ⟨?_, ?_, ?_, ?_⟩
  · unfold mtCandidate
    by_cases h1 : queryGet nameURL.query "type" = "" <;>
      by_cases h2 : queryGet base.query "type" = "" <;>
      by_cases h3 : g = "" <;>
      by_cases h4 : typeByExtension (filepathExt nameURL.path) = "" <;>
      by_cases h5 : typeByExtension (filepathExt base.path) = "" <;>
      simp [h1, h2, h3, h4, h5, spacesToPlus_eq_empty]
  · intro h0
    rw [guessMimeTypeParsed_eq, if_pos h0]
  · intro h0 e he
    rw [guessMimeTypeParsed_eq, if_neg h0, he]
  · intro h0 tp htp
    refine ⟨by rw [guessMimeTypeParsed_eq, if_neg h0, htp], ?_⟩
    simp only [parseMediaType] at htp
    by_cases hc : checkMediaTypeTokens (mediaTypeBase (mtCandidate base nameURL g)).data = true
    · rw [if_pos hc] at htp
      injection htp with htp
      rw [← htp]
    · rw [if_neg hc] at htp
      cases htp

/-- Witness for C6: the malformed base-query candidate `a/b/c` of the Go test
is a hard error, not a `text/plain` fallback; and a well-formed candidate
with a parameter resolves to its base type with the parameter discarded. -/
theorem mimeType_candidate_hard_error_witness :
    guessMimeTypeParsed ⟨"http", "", "example.com", "/list", [("type", "a/b/c")]⟩
        ⟨"", "", "", "/", []⟩ "" = .error (.invalidMediaType "a/b/c") ∧
    guessMimeTypeParsed ⟨"http", "", "example.com", "/list", [("type", "Text/Plain; charset=utf-8")]⟩
        ⟨"", "", "", "/", []⟩ "" = .ok "text/plain" := by
  constructor
  · exact (mimeType_candidate_hard_error ⟨"http", "", "example.com", "/list",
      [("type", "a/b/c")]⟩ ⟨"", "", "", "/", []⟩ "").2.2.1 (by decide) "a/b/c" rfl
  · exact ((mimeType_candidate_hard_error ⟨"http", "", "example.com", "/list",
      [("type", "Text/Plain; charset=utf-8")]⟩ ⟨"", "", "", "/", []⟩ "").2.2.2
        (by decide) ("text/plain", "+charset=utf-8") rfl).1

/-- C9: media-type alias normalization is idempotent, the two legacy
spellings canonicalize (`application/x-yaml` to the YAML type,
`application/text` to the plain-text type), and every other string is
returned unchanged. -/
theorem mimeAlias_idempotent (m : String) :
    mimeAlias (mimeAlias m) = mimeAlias m ∧
    mimeAlias "application/x-yaml" = yamlMimetype ∧
    mimeAlias "application/text" = textMimetype ∧
    (m ≠ "application/x-yaml" → m ≠ "application/text" → mimeAlias m = m) := by
  refine ⟨?_, rfl, rfl, ?_⟩
  · by_cases h1 : m = "application/x-yaml"
    · subst h1; decide
    · by_cases h2 : m = "application/text"
      · subst h2; decide
      · simp [mimeAlias, h1, h2]
  · intro h1 h2
    simp [mimeAlias, h1, h2]

/-- Witness for C9 at a canonical type that is not a legacy spelling. -/
theorem mimeAlias_idempotent_witness :
    mimeAlias (mimeAlias "text/csv") = mimeAlias "text/csv" ∧ mimeAlias "text/csv" = "text/csv" :=
  ⟨(mimeAlias_idempotent "text/csv").1,
   (mimeAlias_idempotent "text/csv").2.2.2 (by decide) (by decide)⟩

/-- C10: the two media-type resolution implementations are equivalent — for
every `Source` and argument string, `Source.mimeType s arg` returns exactly
the same outcome as `guessMimeType s.URL arg s.mediaType`. -/
theorem mimeType_eq_guessMimeType (s : Source) (arg : String) :
    Source.mimeType s arg = guessMimeType s.URL arg s.mediaType := rfl

/-- C2 counterexample: when a query key repeats within the relative
reference, `resolveURL` takes only the first value of the key (via
`url.Values.Get`); the values are not joined with a single space, so the
merged value for `b` is `"1"`, not `"1 2"`. -/
theorem resolveURL_space_join_counterexample :
    resolveURL ⟨"http", "", "x", "/", [("a", "1")]⟩
        (.ok ⟨"", "", "", "", [("b", "1"), ("b", "2")]⟩) =
      .ok ⟨"http", "", "x", "/", [("a", "1"), ("b", "1")]⟩ ∧
    valuesAll [("a", "1"), ("b", "1")] "b" = ["1"] ∧ ("1" : String) ≠ "1 2" :=
  ⟨rfl, rfl, by decide⟩

/-- C2 (amended): `resolveURL` fails exactly when the relative string is
unparsable; otherwise it resolves the relative reference against the base and
merges queries: with no base query the resolved query is exactly the
query of the relative; with a base query, keys present in the relative are overridden
to the **first** relative value for that key, keys unique to the base keep
all their values, and keys unique to the relative are added with their first
value.  (Space-joining of repeated keys happens only in the Reader-internal
argument parser, not here.) -/
theorem resolveURL_query_merge (base r : URL) (e : String) :
    resolveURL base (.error e) = .error e ∧
    resolveURL base (.ok r) = .ok (resolveMerged base r) ∧
    (base.query = [] → (resolveMerged base r).query = r.query) ∧
    (base.query ≠ [] → ∀ k,
      (memKeys r.query k = true →
        valuesAll (resolveMerged base r).query k = [queryGet r.query k]) ∧
      (memKeys r.query k = false →
        valuesAll (resolveMerged base r).query k = valuesAll base.query k)) := by
  refine ⟨rfl, rfl, ?_, ?_⟩
  · intro h
    unfold resolveMerged
    rw [if_neg (by simp [h])]
    exact resolveReference_query_of_base_empty base r h
  · intro h k
    unfold resolveMerged
    rw [if_pos h]
    constructor
    · intro hk
      show valuesAll (mergeQueries base.query r.query) k = _
      rw [mergeQueries_valuesAll, if_pos hk]
    · intro hk
      show valuesAll (mergeQueries base.query r.query) k = _
      rw [mergeQueries_valuesAll, if_neg (by simp [hk])]

/-- Witness for C2 (amended), on the spec scenario: base
`http://x/a/b/?n=2` with relative `bar.json?q=1` resolves to
`/a/b/bar.json` with query `n=2&q=1`. -/
theorem resolveURL_query_merge_witness :
    resolveURL ⟨"http", "", "x", "/a/b/", [("n", "2")]⟩ (parseURLModel "bar.json?q=1") =
      .ok (resolveMerged ⟨"http", "", "x", "/a/b/", [("n", "2")]⟩
            ⟨"", "", "", "bar.json", [("q", "1")]⟩) ∧
    (resolveMerged ⟨"http", "", "x", "/a/b/", [("n", "2")]⟩
        ⟨"", "", "", "bar.json", [("q", "1")]⟩).path = "/a/b/bar.json" ∧
    valuesAll (resolveMerged ⟨"http", "", "x", "/a/b/", [("n", "2")]⟩
        ⟨"", "", "", "bar.json", [("q", "1")]⟩).query "q" = [queryGet [("q", "1")] "q"] ∧
    valuesAll (resolveMerged ⟨"http", "", "x", "/a/b/", [("n", "2")]⟩
        ⟨"", "", "", "bar.json", [("q", "1")]⟩).query "n" = valuesAll [("n", "2")] "n" := by
  refine ⟨?_, rfl, ?_, ?_⟩
  · rw [show parseURLModel "bar.json?q=1" =
      .ok ⟨"", "", "", "bar.json", [("q", "1")]⟩ from rfl]
    exact (resolveURL_query_merge ⟨"http", "", "x", "/a/b/", [("n", "2")]⟩
      ⟨"", "", "", "bar.json", [("q", "1")]⟩ "").2.1
  · exact ((resolveURL_query_merge _ _ "").2.2.2 (by decide) "q").1 (by decide)
  · exact ((resolveURL_query_merge _ _ "").2.2.2 (by decide) "n").2 (by decide)

/-- C3: `readSource` computes the cache key as the alias concatenated with
all argument strings in call order; a present entry is returned as-is with no
pipeline invocation and no cache change; a successful fetch stores the
`(bytes, contentType)` entry under the key and returns it; a failed fetch
stores nothing, leaving the cache unchanged for a retry. -/
theorem readSource_cache {ε : Type} (pipeline : Source → List String → Except ε fileContent)
    (cache : List (String × fileContent)) (source : Source) (args : List String) :
    cacheKey source args = source.Alias ++ concatArgs args ∧
    (∀ fc, lookupCache cache (cacheKey source args) = some fc →
      readSource pipeline cache source args = (.ok fc, cache, 0)) ∧
    (lookupCache cache (cacheKey source args) = none →
      (∀ fc, pipeline source args = .ok fc →
        readSource pipeline cache source args =
          (.ok fc, cacheInsert cache (cacheKey source args) fc, 1) ∧
        lookupCache (cacheInsert cache (cacheKey source args) fc) (cacheKey source args) =
          some fc) ∧
      (∀ e, pipeline source args = .error e →
        readSource pipeline cache source args = (.error e, cache, 1))) := by
  refine ⟨cacheKey_eq source args, ?_, ?_⟩
  · intro fc hfc
    simp only [readSource]
    rw [hfc]
  · intro hnone
    constructor
    · intro fc hfc
      constructor
      · simp only [readSource]
        rw [hnone, hfc]
      · simp [lookupCache, cacheInsert, List.find?]
    · intro e he
      simp only [readSource]
      rw [hnone, he]

/-- Witness for C3: a miss fetches once and stores under the key `"abc"`;
with the stored cache, the identical call returns the entry with zero
pipeline invocations. -/
theorem readSource_cache_witness :
    cacheKey ⟨"a", {}, "", false⟩ ["b", "c"] = "a" ++ concatArgs ["b", "c"] ∧
    readSource (fun _ _ => (.ok ⟨"x", "text/plain"⟩ : Except String fileContent)) []
        ⟨"a", {}, "", false⟩ ["b", "c"] =
      (.ok ⟨"x", "text/plain"⟩,
        cacheInsert [] (cacheKey ⟨"a", {}, "", false⟩ ["b", "c"]) ⟨"x", "text/plain"⟩, 1) ∧
    readSource (fun _ _ => (.ok ⟨"x", "text/plain"⟩ : Except String fileContent))
        (cacheInsert [] (cacheKey ⟨"a", {}, "", false⟩ ["b", "c"]) ⟨"x", "text/plain"⟩)
        ⟨"a", {}, "", false⟩ ["b", "c"] =
      (.ok ⟨"x", "text/plain"⟩,
        cacheInsert [] (cacheKey ⟨"a", {}, "", false⟩ ["b", "c"]) ⟨"x", "text/plain"⟩, 0) := by
  refine ⟨(readSource_cache (fun _ _ => (.ok ⟨"x", "text/plain"⟩ : Except String fileContent))
      [] ⟨"a", {}, "", false⟩ ["b", "c"]).1, ?_, ?_⟩
  · exact (((readSource_cache (fun _ _ => (.ok ⟨"x", "text/plain"⟩ : Except String fileContent))
      [] ⟨"a", {}, "", false⟩ ["b", "c"]).2.2 rfl).1 ⟨"x", "text/plain"⟩ rfl).1
  · exact (readSource_cache (fun _ _ => (.ok ⟨"x", "text/plain"⟩ : Except String fileContent))
      (cacheInsert [] (cacheKey ⟨"a", {}, "", false⟩ ["b", "c"]) ⟨"x", "text/plain"⟩)
      ⟨"a", {}, "", false⟩ ["b", "c"]).2.1 ⟨"x", "text/plain"⟩ rfl

/-- C4: `splitFSMuxURL` returns a root equal to the input with its path reset
to `"/"` and scheme, authority and query unchanged; the relative path is the
input path with one leading separator stripped, else the opaque component
(cleared on the root), else `"."`. -/
theorem splitFSMuxURL_spec (u : URL) :
    ((splitFSMuxURL u).1.scheme = u.scheme ∧ (splitFSMuxURL u).1.host = u.host ∧
     (splitFSMuxURL u).1.query = u.query ∧ (splitFSMuxURL u).1.path = "/") ∧
    (stripLeadSep u.path ≠ "" →
      (splitFSMuxURL u).2 = stripLeadSep u.path ∧ (splitFSMuxURL u).1.opq = u.opq) ∧
    (stripLeadSep u.path = "" → u.opq ≠ "" →
      (splitFSMuxURL u).2 = u.opq ∧ (splitFSMuxURL u).1.opq = "") ∧
    (stripLeadSep u.path = "" → u.opq = "" → (splitFSMuxURL u).2 = ".") := by
  by_cases h1 : stripLeadSep u.path = "" <;> by_cases h2 : u.opq = "" <;>
    (unfold splitFSMuxURL; simp [h1, h2])

/-- Witness for C4: a path-carrying reference keeps its opaque field (empty)
and strips one separator; an opaque-only reference moves the opaque data to
the relative path and clears it on the root. -/
theorem splitFSMuxURL_spec_witness :
    (splitFSMuxURL ⟨"vault", "", "", "/secret/a", []⟩).2 = stripLeadSep "/secret/a" ∧
    (splitFSMuxURL ⟨"env", "FOO", "", "", []⟩).2 = "FOO" ∧
    (splitFSMuxURL ⟨"env", "FOO", "", "", []⟩).1.opq = "" ∧
    (splitFSMuxURL ⟨"stdin", "", "", "", []⟩).2 = "." := by
  refine ⟨?_, ?_, ?_, ?_⟩
  · exact ((splitFSMuxURL_spec ⟨"vault", "", "", "/secret/a", []⟩).2.1 (by decide)).1
  · exact ((splitFSMuxURL_spec ⟨"env", "FOO", "", "", []⟩).2.2.1 (by decide) (by decide)).1
  · exact ((splitFSMuxURL_spec ⟨"env", "FOO", "", "", []⟩).2.2.1 (by decide) (by decide)).2
  · exact (splitFSMuxURL_spec ⟨"stdin", "", "", "", []⟩).2.2.2 (by decide) (by decide)

theorem dropChars_append (p s : String) : dropChars (p ++ s) p.length = s := by
  apply String.ext
  show (p ++ s).data.drop p.length = s.data
  rw [strAppend_data]
  exact List.drop_left p.data s.data

/-- C5: on a resolved logical path ending in the separator, the aws+smp
Reader fixes the content type to the JSON-array type regardless of any other
signal, fetches the entries under the path via `GetParametersByPath`, strips
the path prefix from each returned name (dropping its first `len(path)`
characters, which removes exactly the prefix), and returns the suffixes as a
JSON array; otherwise it fixes the content type to the JSON type, fetches
exactly one value via `GetParameter` and returns it as a single JSON
object. -/
theorem readAWSSMP_directory_leaf (getP : String → Except String SSMParam)
    (getL : String → Except String (List SSMParam)) (source : Source) (args : List String)
    (params : List (String × String)) (p : String)
    (h : parseDatasourceURLArgs source.URL args = .ok (params, p)) :
    (endsWithSlash p = true →
      (readAWSSMP getP getL source args).2.mediaType = jsonArrayMimetype ∧
      (∀ ps, getL p = .ok ps →
        (readAWSSMP getP getL source args).1 =
          .ok (jsonStringArray (ps.map (fun q => dropChars q.Name p.length)))) ∧
      (∀ s : String, dropChars (p ++ s) p.length = s)) ∧
    (endsWithSlash p = false →
      (readAWSSMP getP getL source args).2.mediaType = jsonMimetype ∧
      (∀ q, getP p = .ok q →
        (readAWSSMP getP getL source args).1 = .ok (jsonParamObject q))) := by
  obtain ⟨al, u, mt, hd⟩ := source
  simp only [readAWSSMP] at *
  rw [h]
  constructor
  · intro hs
    refine ⟨?_, ?_, fun s => dropChars_append p s⟩
    · cases hgl : getL p <;> simp [listAWSSMPParams, hgl, hs]
    · intro ps hps
      simp [listAWSSMPParams, hps, hs]
  · intro hs
    constructor
    · cases hgp : getP p <;> simp [readAWSSMPParam, hgp, hs]
    · intro q hq
      simp [readAWSSMPParam, hq, hs]

/-- Witness for C5: a directory path `/foo/` lists and strips the prefix,
with the array content type; a leaf path `/foo` returns one JSON object with
the JSON content type. -/
theorem readAWSSMP_directory_leaf_witness :
    (readAWSSMP (fun _ => .error "x") (fun _ => .ok [⟨"/foo/a", "1"⟩, ⟨"/foo/b", "2"⟩])
        ⟨"x", ⟨"aws+smp", "", "", "/foo/", []⟩, "", false⟩ []).2.mediaType = jsonArrayMimetype ∧
    (readAWSSMP (fun _ => .error "x") (fun _ => .ok [⟨"/foo/a", "1"⟩, ⟨"/foo/b", "2"⟩])
        ⟨"x", ⟨"aws+smp", "", "", "/foo/", []⟩, "", false⟩ []).1 =
      .ok (jsonStringArray ([⟨"/foo/a", "1"⟩, ⟨"/foo/b", "2"⟩].map
            (fun q : SSMParam => dropChars q.Name "/foo/".length))) ∧
    dropChars ("/foo/" ++ "bar") "/foo/".length = "bar" ∧
    (readAWSSMP (fun _ => .ok ⟨"/foo", "v"⟩) (fun _ => .error "x")
        ⟨"x", ⟨"aws+smp", "", "", "/foo", []⟩, "", false⟩ []).2.mediaType = jsonMimetype ∧
    (readAWSSMP (fun _ => .ok ⟨"/foo", "v"⟩) (fun _ => .error "x")
        ⟨"x", ⟨"aws+smp", "", "", "/foo", []⟩, "", false⟩ []).1 =
      .ok (jsonParamObject ⟨"/foo", "v"⟩) := by
  have hdir := (readAWSSMP_directory_leaf (fun _ => .error "x")
    (fun _ => .ok [⟨"/foo/a", "1"⟩, ⟨"/foo/b", "2"⟩])
    ⟨"x", ⟨"aws+smp", "", "", "/foo/", []⟩, "", false⟩ [] [] "/foo/" rfl).1 rfl
  have hleaf := (readAWSSMP_directory_leaf (fun _ => .ok ⟨"/foo", "v"⟩)
    (fun _ => .error "x")
    ⟨"x", ⟨"aws+smp", "", "", "/foo", []⟩, "", false⟩ [] [] "/foo" rfl).2 rfl
  exact ⟨hdir.1, hdir.2.1 _ rfl, hdir.2.2 "bar", hleaf.1, hleaf.2 _ rfl⟩

/-- C7: the aws+smp argument parser fails with the "maximum two arguments"
error exactly on two or more relative-specifier arguments, reporting the
limit (2) and the count received; zero or one argument never produces that
error. -/
theorem parseDatasourceURLArgs_limit (u : URL) (args : List String) :
    (2 ≤ args.length →
      parseDatasourceURLArgs u args = .error (.tooManyArgs u.scheme 2 args.length)) ∧
    (args.length ≤ 1 →
      ∀ sc l f, parseDatasourceURLArgs u args ≠ .error (.tooManyArgs sc l f)) := by
  constructor
  · intro h
    unfold parseDatasourceURLArgs
    rw [if_pos h]
  · intro h sc l f
    unfold parseDatasourceURLArgs
    rw [if_neg (by omega)]
    cases args with
    | nil => simp
    | cons a rest =>
      cases hp : parseURLModel a <;> simp [hp]

/-- Witness for C7: three arguments yield the error naming limit 2 and count
3; one argument does not produce that error. -/
theorem parseDatasourceURLArgs_limit_witness :
    parseDatasourceURLArgs ⟨"aws+smp", "", "", "/foo", []⟩ ["a", "b", "c"] =
      .error (.tooManyArgs "aws+smp" 2 3) ∧
    parseDatasourceURLArgs ⟨"aws+smp", "", "", "/foo", []⟩ ["a"] ≠
      .error (.tooManyArgs "aws+smp" 2 1) :=
  ⟨(parseDatasourceURLArgs_limit ⟨"aws+smp", "", "", "/foo", []⟩ ["a", "b", "c"]).1 (by decide),
   (parseDatasourceURLArgs_limit ⟨"aws+smp", "", "", "/foo", []⟩ ["a"]).2 (by decide)
     "aws+smp" 2 1⟩

/-- C8 counterexample: a Reader invocation whose fetch fails does **not**
leave the declared media type unchanged — `readAWSSMP` sets it before
fetching, so after a failed leaf fetch the initially-empty declared type has
become the JSON type. -/
theorem readAWSSMP_mediaType_counterexample :
    (readAWSSMP (fun _ => .error "fetch failed") (fun _ => .error "fetch failed")
        ⟨"x", ⟨"aws+smp", "", "", "/foo", []⟩, "", false⟩ []).1 =
      .error (.backend "fetch failed") ∧
    (readAWSSMP (fun _ => .error "fetch failed") (fun _ => .error "fetch failed")
        ⟨"x", ⟨"aws+smp", "", "", "/foo", []⟩, "", false⟩ []).2.mediaType = jsonMimetype ∧
    jsonMimetype ≠ "" :=
  ⟨rfl, rfl, by decide⟩

/-- C8 (amended): the aws+smp Reader writes the declared media type
unconditionally before fetching — to the JSON type, overridden to the
JSON-array type for directory paths — so a failed fetch leaves the field set
to that fixed type rather than to its previous value; only an argument-parse
failure leaves it unchanged. -/
theorem readAWSSMP_mediaType_write (getP : String → Except String SSMParam)
    (getL : String → Except String (List SSMParam)) (source : Source)
    (args : List String) :
    (∀ e, parseDatasourceURLArgs source.URL args = .error e →
      (readAWSSMP getP getL source args).2.mediaType = source.mediaType) ∧
    (∀ params p, parseDatasourceURLArgs source.URL args = .ok (params, p) →
      (readAWSSMP getP getL source args).2.mediaType =
        (if endsWithSlash p then jsonArrayMimetype else jsonMimetype)) := by
  obtain ⟨al, u, mt, hd⟩ := source
  simp only [readAWSSMP]
  constructor
  · intro e he
    rw [he]
  · intro params p hp
    rw [hp]
    by_cases hs : endsWithSlash p
    · cases hgl : getL p <;> simp [listAWSSMPParams, hgl, hs]
    · cases hgp : getP p <;> simp [readAWSSMPParam, hgp, hs]

/-- Witness for C8 (amended): with unparsable arguments the declared type is
untouched; with a failed directory fetch it is the JSON-array type. -/
theorem readAWSSMP_mediaType_write_witness :
    (readAWSSMP (fun _ => .error "x") (fun _ => .error "x")
        ⟨"x", ⟨"aws+smp", "", "", "/foo", []⟩, "orig", false⟩ ["a", "b"]).2.mediaType =
      "orig" ∧
    (readAWSSMP (fun _ => .error "x") (fun _ => .error "x")
        ⟨"x", ⟨"aws+smp", "", "", "/foo/", []⟩, "orig", false⟩ []).2.mediaType =
      (if endsWithSlash "/foo/" then jsonArrayMimetype else jsonMimetype) :=
  ⟨(readAWSSMP_mediaType_write (fun _ => .error "x") (fun _ => .error "x")
      ⟨"x", ⟨"aws+smp", "", "", "/foo", []⟩, "orig", false⟩ ["a", "b"]).1
      (.tooManyArgs "aws+smp" 2 2) rfl,
   (readAWSSMP_mediaType_write (fun _ => .error "x") (fun _ => .error "x")
      ⟨"x", ⟨"aws+smp", "", "", "/foo/", []⟩, "orig", false⟩ []).2 [] "/foo/" rfl⟩

end GomplateData
